import Mathlib

/-!
Verification development for the diffusion-map utility module
(`palantir/utils.py` of the Palantir repository).

The Python module is shallowly embedded here:

* dense/sparse matrices become functions `Fin n → Fin n → _` (resp. `Matrix`),
  with sparse distance graphs as `Fin n → Fin n → Option ℚ` (an entry is
  `some d` exactly when the edge is stored);
* numpy float arithmetic is modelled exactly over `ℚ` where the computation is
  rational and over `ℝ` where `exp`, `rpow` or `sqrt` are involved, so
  "within floating tolerance" statements become exact equalities;
* `numpy.argsort` is modelled as a stable ascending sort of the index list
  (ties never matter in the theorems below, which carry uniqueness hypotheses);
* Python exceptions become `Except`, and the two places where the module
  references names that are not bound in its namespace are modelled through an
  explicit name-resolution table taken from the import list of the file.
-/

namespace Palantir

/-! ### numpy argsort, modelled as a stable ascending index sort

`np.argsort(a)` returns the list of indices of `a` ordered by increasing
value.  The code under verification only ever uses `argsort(a)[-1]` and
`argsort(a)[-2]`, i.e. the head and second element of the reversed list.  -/

/-- Indices `0, …, l.length - 1` sorted by increasing value of `l`
(stable: ties keep index order). -/
def argsort_asc {α : Type} [LinearOrderedAddCommGroup α] (l : List α) : List ℕ :=
  List.insertionSort (fun a b => l.getD a 0 ≤ l.getD b 0) (List.range l.length)

/-- Model of `np.argsort(l)[::-1]`: the argsort list reversed (descending value). -/
def np_argsort_rev {α : Type} [LinearOrderedAddCommGroup α] (l : List α) : List ℕ :=
  (argsort_asc l).reverse

theorem argsort_asc_perm {α : Type} [LinearOrderedAddCommGroup α] (l : List α) :
    List.Perm (argsort_asc l) (List.range l.length) :=
  List.perm_insertionSort _ _

theorem argsort_asc_pairwise {α : Type} [LinearOrderedAddCommGroup α] (l : List α) :
    List.Pairwise (fun a b => l.getD a 0 ≤ l.getD b 0) (argsort_asc l) := by
  haveI : IsTotal ℕ (fun a b => l.getD a 0 ≤ l.getD b 0) := ⟨fun a b => le_total _ _⟩
  haveI : IsTrans ℕ (fun a b => l.getD a 0 ≤ l.getD b 0) := ⟨fun a b c hab hbc => le_trans hab hbc⟩
  exact List.sorted_insertionSort _ _

theorem np_argsort_rev_length {α : Type} [LinearOrderedAddCommGroup α] (l : List α) :
    (np_argsort_rev l).length = l.length := by
  rw [np_argsort_rev, List.length_reverse, (argsort_asc_perm l).length_eq, List.length_range]

theorem np_argsort_rev_pairwise {α : Type} [LinearOrderedAddCommGroup α] (l : List α) :
    List.Pairwise (fun a b => l.getD b 0 ≤ l.getD a 0) (np_argsort_rev l) := by
  rw [np_argsort_rev]
  exact List.pairwise_reverse.mpr (argsort_asc_pairwise l)

theorem np_argsort_rev_mem {α : Type} [LinearOrderedAddCommGroup α] (l : List α) (k : ℕ) :
    k ∈ np_argsort_rev l ↔ k < l.length := by
  rw [np_argsort_rev, List.mem_reverse, (argsort_asc_perm l).mem_iff, List.mem_range]

theorem np_argsort_rev_nodup {α : Type} [LinearOrderedAddCommGroup α] (l : List α) :
    (np_argsort_rev l).Nodup := by
  rw [np_argsort_rev, List.nodup_reverse]
  exact (argsort_asc_perm l).nodup_iff.mpr (List.nodup_range _)

/-- The element at position `0` of the reversed argsort (i.e. `argsort(l)[-1]`)
is an in-range index carrying a maximal value of `l`. -/
theorem np_argsort_rev_head_max {α : Type} [LinearOrderedAddCommGroup α] (l : List α) (h : l ≠ []) :
    (np_argsort_rev l).getD 0 0 < l.length ∧
      ∀ k, k < l.length → l.getD k 0 ≤ l.getD ((np_argsort_rev l).getD 0 0) 0 := by
  cases hcase : np_argsort_rev l with
  | nil =>
    have hlen := np_argsort_rev_length l
    rw [hcase] at hlen
    exact absurd (List.length_eq_zero.mp hlen.symm) h
  | cons j₀ t =>
    have hmem : ∀ k, k ∈ j₀ :: t ↔ k < l.length := by
      intro k; rw [← hcase]; exact np_argsort_rev_mem l k
    have hpw := np_argsort_rev_pairwise l
    rw [hcase, List.pairwise_cons] at hpw
    simp only [List.getD_cons_zero]
    refine ⟨(hmem j₀).mp (List.mem_cons_self _ _), ?_⟩
    intro k hk
    rcases List.mem_cons.mp ((hmem k).mpr hk) with hkj | hkt
    · rw [hkj]
    · exact hpw.1 k hkt

/-- The element at position `1` of the reversed argsort (i.e. `argsort(l)[-2]`)
is an in-range index, distinct from the head, carrying a maximal value of `l`
among all indices other than the head. -/
theorem np_argsort_rev_second_max {α : Type} [LinearOrderedAddCommGroup α] (l : List α)
    (h : 2 ≤ l.length) :
    (np_argsort_rev l).getD 1 0 < l.length ∧
      (np_argsort_rev l).getD 1 0 ≠ (np_argsort_rev l).getD 0 0 ∧
      ∀ k, k < l.length → k ≠ (np_argsort_rev l).getD 0 0 →
        l.getD k 0 ≤ l.getD ((np_argsort_rev l).getD 1 0) 0 := by
  have hlen := np_argsort_rev_length l
  cases hcase : np_argsort_rev l with
  | nil =>
    rw [hcase] at hlen
    have h0 : l.length = 0 := by simpa using hlen.symm
    exact absurd h (by omega)
  | cons j₀ t =>
    cases t with
    | nil =>
      rw [hcase] at hlen
      have h1 : l.length = 1 := by simpa using hlen.symm
      exact absurd h (by omega)
    | cons j₁ t₂ =>
      have hmem : ∀ k, k ∈ j₀ :: j₁ :: t₂ ↔ k < l.length := by
        intro k; rw [← hcase]; exact np_argsort_rev_mem l k
      have hpw := np_argsort_rev_pairwise l
      have hnd := np_argsort_rev_nodup l
      rw [hcase, List.pairwise_cons] at hpw
      rw [hcase, List.nodup_cons] at hnd
      have hpw2 := hpw.2
      rw [List.pairwise_cons] at hpw2
      simp only [List.getD_cons_zero, List.getD_cons_succ]
      refine ⟨(hmem j₁).mp (List.mem_cons_of_mem _ (List.mem_cons_self _ _)), ?_, ?_⟩
      · intro heq
        exact hnd.1 (heq ▸ List.mem_cons_self j₁ t₂)
      · intro k hk hkne
        rcases List.mem_cons.mp ((hmem k).mpr hk) with h0 | hrest
        · exact absurd h0 hkne
        rcases List.mem_cons.mp hrest with h1 | h2
        · rw [h1]
        · exact hpw2.1 k h2

/-! ### Multiscale eigen-gap selector (`determine_multiscale_space`, lines 154–158)

```python
vals = np.ravel(dm_res["EigenValues"])
n_eigs = np.argsort(vals[: (len(vals) - 1)] - vals[1:])[-1] + 1
if n_eigs < 3:
    n_eigs = np.argsort(vals[: (len(vals) - 1)] - vals[1:])[-2] + 1
```
-/

/-- Model of `vals[: (len(vals) - 1)] - vals[1:]`: the list of consecutive
differences `d_k = vals[k] - vals[k+1]` for `k = 0, …, len - 2`. -/
def consecutive_diffs {α : Type} [LinearOrderedAddCommGroup α] (vals : List α) : List α :=
  List.zipWith (fun a b => a - b) vals vals.tail

/-- Model of the automatic `n_eigs` selection of `determine_multiscale_space`
when `n_eigs is None` (lines 154–158 of the source, shown above).  Note the
difference list starts at `d_0 = vals[0] - vals[1]`: the drop out of the first
(trivial) eigenvalue is among the candidates of the argsort. -/
def eigengap_n_eigs {α : Type} [LinearOrderedAddCommGroup α] (vals : List α) : ℕ :=
  let diffs := consecutive_diffs vals
  let n_eigs := (np_argsort_rev diffs).getD 0 0 + 1
  if n_eigs < 3 then (np_argsort_rev diffs).getD 1 0 + 1 else n_eigs

/-- Characterization of `eigengap_n_eigs` under uniqueness of the largest and
second-largest consecutive difference: the selector returns the index of the
largest difference plus one, falling back to the index of the second-largest
difference plus one when the former is below `3`. -/
theorem eigengap_n_eigs_eq {α : Type} [LinearOrderedAddCommGroup α] (vals : List α) (g s : ℕ)
    (hg : g < (consecutive_diffs vals).length)
    (hs : s < (consecutive_diffs vals).length)
    (hgs : s ≠ g)
    (hmax : ∀ k, k < (consecutive_diffs vals).length → k ≠ g →
      (consecutive_diffs vals).getD k 0 < (consecutive_diffs vals).getD g 0)
    (hsecond : ∀ k, k < (consecutive_diffs vals).length → k ≠ g → k ≠ s →
      (consecutive_diffs vals).getD k 0 < (consecutive_diffs vals).getD s 0) :
    eigengap_n_eigs vals = if g + 1 < 3 then s + 1 else g + 1 := by
  set L := consecutive_diffs vals with hL
  have hne : L ≠ [] := List.ne_nil_of_length_pos (Nat.lt_of_le_of_lt (Nat.zero_le g) hg)
  obtain ⟨h0lt, h0max⟩ := np_argsort_rev_head_max L hne
  have hj0 : (np_argsort_rev L).getD 0 0 = g := by
    by_contra hneq
    exact absurd (h0max g hg) (not_le.mpr (hmax _ h0lt hneq))
  have hlen2 : 2 ≤ L.length := by
    rcases Nat.lt_or_ge L.length 2 with hlt | hge
    · interval_cases hLl : L.length <;> omega
    · exact hge
  obtain ⟨h1lt, h1ne, h1max⟩ := np_argsort_rev_second_max L hlen2
  rw [hj0] at h1ne h1max
  have hj1 : (np_argsort_rev L).getD 1 0 = s := by
    by_contra hneq
    exact absurd (h1max s hs hgs) (not_le.mpr (hsecond _ h1lt h1ne hneq))
  rw [eigengap_n_eigs]
  simp only [← hL, hj0, hj1]

/-- Definition following the words of the specification for comparison with
`eigengap_n_eigs` (claim C5): the index of the largest drop taken over the
consecutive differences EXCLUDING the drop from the first (trivial) eigenvalue
to the second, i.e. over `d_1, …, d_{m-2}` only; below-3 guard unchanged.
Positions inside the tail are converted back to indices of the full difference
list by adding one. -/
def eigengap_n_eigs_spec_skip_first {α : Type} [LinearOrderedAddCommGroup α]
    (vals : List α) : ℕ :=
  let diffs := (consecutive_diffs vals).tail
  let n_eigs := ((np_argsort_rev diffs).getD 0 0 + 1) + 1
  if n_eigs < 3 then ((np_argsort_rev diffs).getD 1 0 + 1) + 1 else n_eigs

/-- Claim C4: for every eigenvalue sequence, when `n_eigs` is unspecified,
`determine_multiscale_space` sets `n_eigs` to the index of the largest
consecutive difference plus one, and when that value is below `3` it instead
uses the index of the second-largest consecutive difference plus one; in
particular a unique large gap at index `g ≥ 3` yields `n_eigs = g + 1`.
Stated for sequences whose largest and second-largest differences have unique
indices `g` and `s` (numpy argsort tie order is unspecified otherwise). -/
theorem claim_C4_eigengap_selection {α : Type} [LinearOrderedAddCommGroup α]
    (vals : List α) (g s : ℕ)
    (hg : g < (consecutive_diffs vals).length)
    (hs : s < (consecutive_diffs vals).length)
    (hgs : s ≠ g)
    (hmax : ∀ k, k < (consecutive_diffs vals).length → k ≠ g →
      (consecutive_diffs vals).getD k 0 < (consecutive_diffs vals).getD g 0)
    (hsecond : ∀ k, k < (consecutive_diffs vals).length → k ≠ g → k ≠ s →
      (consecutive_diffs vals).getD k 0 < (consecutive_diffs vals).getD s 0) :
    eigengap_n_eigs vals = if g + 1 < 3 then s + 1 else g + 1 :=
  eigengap_n_eigs_eq vals g s hg hs hgs hmax hsecond

/-- Witness for claim C4: the sequence `[100, 90, 81, 73, 10, 9]` has
differences `[10, 9, 8, 63, 1]` with the unique largest at `g = 3 ≥ 3` and the
unique second-largest at `s = 0`, and the selector returns `g + 1 = 4`. -/
theorem claim_C4_eigengap_selection_witness :
    (3 < (consecutive_diffs ([100, 90, 81, 73, 10, 9] : List ℤ)).length) ∧
      eigengap_n_eigs ([100, 90, 81, 73, 10, 9] : List ℤ) = 4 :=
  ⟨by decide, by
    have h := claim_C4_eigengap_selection ([100, 90, 81, 73, 10, 9] : List ℤ) 3 0
      (by decide) (by decide) (by decide) (by decide) (by decide)
    simpa using h⟩

/-- Counterexample to claim C5 as stated: the code does NOT skip the drop from
the first eigenvalue to the second.  On `[100, 20, 15, 12, 10, 9]` (differences
`[80, 5, 3, 2, 1]`) the code first picks index 0 — the drop out of the trivial
first eigenvalue — obtaining `n_eigs = 1 < 3`, and then falls back to the
second-largest drop, returning `2`; the skip-first selector described by the
spec sentence would return `3`. -/
theorem claim_C5_counterexample :
    eigengap_n_eigs ([100, 20, 15, 12, 10, 9] : List ℤ) = 2 ∧
      eigengap_n_eigs_spec_skip_first ([100, 20, 15, 12, 10, 9] : List ℤ) = 3 ∧
      eigengap_n_eigs ([100, 20, 15, 12, 10, 9] : List ℤ) ≠
        eigengap_n_eigs_spec_skip_first ([100, 20, 15, 12, 10, 9] : List ℤ) := by
  refine ⟨by decide, by decide, by decide⟩

/-- Claim C5, amended: the eigen-gap computation does not skip the gap out of
the trivial first eigenvalue — the drop `vals[0] - vals[1]` is among the
argsort candidates.  When it is the unique largest drop, the resulting
`n_eigs = 1` triggers the below-3 guard and the selector returns the index of
the second-largest drop plus one. -/
theorem claim_C5_first_gap_included {α : Type} [LinearOrderedAddCommGroup α]
    (vals : List α) (s : ℕ)
    (hs : s < (consecutive_diffs vals).length)
    (hs0 : s ≠ 0)
    (hmax : ∀ k, k < (consecutive_diffs vals).length → k ≠ 0 →
      (consecutive_diffs vals).getD k 0 < (consecutive_diffs vals).getD 0 0)
    (hsecond : ∀ k, k < (consecutive_diffs vals).length → k ≠ 0 → k ≠ s →
      (consecutive_diffs vals).getD k 0 < (consecutive_diffs vals).getD s 0) :
    eigengap_n_eigs vals = s + 1 := by
  have h0 : (0 : ℕ) < (consecutive_diffs vals).length :=
    Nat.lt_of_le_of_lt (Nat.zero_le s) hs
  have h := eigengap_n_eigs_eq vals 0 s h0 hs hs0 hmax hsecond
  simpa using h

/-- Witness for the amended claim C5: on `[100, 20, 15, 12, 10, 9]` the unique
largest drop is `d_0 = 80` and the unique second-largest is `d_1 = 5`, so the
selector returns `1 + 1 = 2`. -/
theorem claim_C5_first_gap_included_witness :
    (1 < (consecutive_diffs ([100, 20, 15, 12, 10, 9] : List ℤ)).length) ∧
      eigengap_n_eigs ([100, 20, 15, 12, 10, 9] : List ℤ) = 1 + 1 :=
  ⟨by decide,
    claim_C5_first_gap_included ([100, 20, 15, 12, 10, 9] : List ℤ) 1
      (by decide) (by decide) (by decide) (by decide)⟩

/-! ### Terminal/early cell locator (`early_cell`, `fallback_terminal_cell`,
`find_terminal_states`, lines 211–352)

The eigenvector entries and the pseudotime values are kept generic over linear
orders (`α` resp. `β`); the pipeline instantiates both at `ℝ`, the concrete
evaluations below at `ℤ`. -/

/-- Exceptional outcomes of the Python code: `CellNotFoundException` carrying
its message, and `NameError` for a reference to a name that is not bound in
the namespace in which it is evaluated. -/
inductive PyErr : Type where
  | cellNotFound (msg : String)
  | nameError (missing : String)
deriving DecidableEq

/-- What the locator reports for a found cell: on the scan path,
`_return_cell` (lines 211–230) returns the cell name `obs_names[ec]` and
prints the max/min tag `mm` and the diffusion component `dcomp`; on the
fallback path only a cell name is produced.  The printed tag and component
are kept as data so that claims about them can be stated. -/
inductive ECOutcome : Type where
  | found (cell : String) (mm : String) (dcomp : ℕ)
  | fromFallback (cell : String)
deriving DecidableEq

/-- Model of the annotated data object `ad` as the locator uses it: the
eigenvector matrix `ad.obsm["DM_EigenVectors"]`, the cell names
`ad.obs_names`, and the cell-type column `ad.obs[celltype_column]` (the
`celltype_column` parameter merely selects this column; it is modelled as the
single field `anno`). -/
structure AnnData (n m : ℕ) (α : Type) where
  DM_EigenVectors : Fin n → Fin m → α
  obs_names : Fin n → String
  anno : Fin n → String

/-- Model of `np.argmax` on a vector: the first index attaining the maximum. -/
def np_argmax {n : ℕ} [NeZero n] {α : Type} [LinearOrder α] (v : Fin n → α) : Fin n :=
  (List.finRange n).foldl (fun best k => if v best < v k then k else best)
    ⟨0, Nat.pos_of_ne_zero (NeZero.ne n)⟩

/-- Model of `np.argmin` on a vector: the first index attaining the minimum. -/
def np_argmin {n : ℕ} [NeZero n] {α : Type} [LinearOrder α] (v : Fin n → α) : Fin n :=
  (List.finRange n).foldl (fun best k => if v k < v best then k else best)
    ⟨0, Nat.pos_of_ne_zero (NeZero.ne n)⟩

/-- The scan of `early_cell` over diffusion components (lines 252–258): for
each component `d` in order, first check whether the row holding the maximum
of column `d` carries the target label, then the row holding its minimum;
return the first match. -/
def early_cell_scan {n m : ℕ} [NeZero n] {α : Type} [LinearOrder α] (ad : AnnData n m α)
    (celltype : String) : List (Fin m) → Option ECOutcome
  | [] => none
  | d :: rest =>
    if ad.anno (np_argmax fun i => ad.DM_EigenVectors i d) = celltype then
      some (ECOutcome.found
        (ad.obs_names (np_argmax fun i => ad.DM_EigenVectors i d)) "max" d.1)
    else if ad.anno (np_argmin fun i => ad.DM_EigenVectors i d) = celltype then
      some (ECOutcome.found
        (ad.obs_names (np_argmin fun i => ad.DM_EigenVectors i d)) "min" d.1)
    else early_cell_scan ad celltype rest

/-- Position of the first maximum within a list of values.  This models pandas
`Series.argmax` on a boolean-filtered series: the returned integer is a
position local to the filtered series, not a row of the full frame. -/
def series_argmax_pos {β : Type} [LinearOrder β] [Inhabited β] (l : List β) : ℕ :=
  (List.range l.length).foldl
    (fun best k => if l.getD best default < l.getD k default then k else best) 0

/-- Model of `fallback_terminal_cell` (lines 275–305).  The external
trajectory collaborator `palantir.core.run_palantir` applied to the ambient
`ms_data` container is not part of this module; per the specification it is
modelled as the oracle `run_palantir`, mapping the chosen start cell to a
pseudotime per row.  The seeded one-element draw
`other_cells.to_series().sample(1, random_state=seed)[0]` is modelled as the
oracle `sampleFn` applied to the seed and the candidate names.  Lines 298–300
of the source are kept exactly: `ec = pr_res.pseudotime[idx].argmax()` is a
position WITHIN the boolean-filtered series, and `ad.obs_names[ec]` then
indexes the FULL name list with that local position. -/
def fallback_terminal_cell {n m : ℕ} {α β : Type} [LinearOrder α] [LinearOrder β]
    [Inhabited β] (ad : AnnData n m α) (celltype : String) (seed : ℕ)
    (sampleFn : ℕ → List String → String) (run_palantir : String → Fin n → β) : String :=
  let other_cells :=
    ((List.finRange n).filter fun i => decide (ad.anno i ≠ celltype)).map ad.obs_names
  let fake_early_cell := sampleFn seed other_cells
  let pseudotime := run_palantir fake_early_cell
  let idx := (List.finRange n).filter fun i => decide (ad.anno i = celltype)
  let ec := series_argmax_pos (idx.map pseudotime)
  ((List.finRange n).map ad.obs_names).getD ec ""

/-- The message of the `CellNotFoundException` raised at lines 266–272 (quote
characters of the original message elided). -/
def cell_not_found_message (celltype : String) : String :=
  "No valid component found: " ++ celltype ++ " " ++
    "Consider increasing the number of diffusion components " ++
    "(n_components in palantir.utils.run_diffusion_maps) " ++
    "or specify a fallback_seed to determine an early cell based on " ++
    "reverse pseudotime starting from random non-" ++ celltype ++ " cell."

/-- Model of `early_cell` (lines 233–272): scan all diffusion components; if
nothing matches, either run the fallback (when a seed is given) or raise
`CellNotFoundException` naming the cell type. -/
def early_cell {n m : ℕ} [NeZero n] {α β : Type} [LinearOrder α] [LinearOrder β]
    [Inhabited β] (ad : AnnData n m α) (celltype : String) (fallback_seed : Option ℕ)
    (sampleFn : ℕ → List String → String) (run_palantir : String → Fin n → β) :
    Except PyErr ECOutcome :=
  match early_cell_scan ad celltype (List.finRange m) with
  | some r => Except.ok r
  | none =>
    match fallback_seed with
    | some seed =>
      Except.ok (ECOutcome.fromFallback
        (fallback_terminal_cell ad celltype seed sampleFn run_palantir))
    | none => Except.error (PyErr.cellNotFound (cell_not_found_message celltype))

/-- The names bound in the module namespace of `utils.py`: its imports (lines
1–10) and its own top-level definitions.  Notably `palantir` is NOT among
them (the module never imports it), and no module-level `celltype` or
`ms_data` exists. -/
def utils_module_names : List String :=
  ["Iterable", "warn", "pd", "np", "phenograph", "csr_matrix", "find", "issparse",
   "eigs", "sc", "CellNotFoundException", "run_pca", "run_diffusion_maps",
   "run_magic_imputation", "determine_multiscale_space", "run_tsne",
   "determine_cell_clusters", "_return_cell", "early_cell",
   "fallback_terminal_cell", "find_terminal_states"]

/-- The local names of `find_terminal_states`: its parameters, the series
`terminal_states`, the loop variable `ct`, and `cell`. -/
def find_terminal_states_local_names : List String :=
  ["ad", "celltypes", "celltype_column", "fallback_seed", "terminal_states",
   "ct", "cell"]

/-- Name resolution inside the body of `find_terminal_states`: locals first,
then the module namespace. -/
def find_terminal_states_resolves (name : String) : Bool :=
  decide (name ∈ find_terminal_states_local_names ∨ name ∈ utils_module_names)

/-- The cell name carried by a successful locator outcome (the string value
that `early_cell` returns). -/
def ec_result_cell : ECOutcome → String
  | ECOutcome.found c _ _ => c
  | ECOutcome.fromFallback c => c

/-- Loop of `find_terminal_states` (lines 339–351), accumulating the
`(celltype, cell)` pairs of the result series and the emitted warnings.  On a
`CellNotFoundException` the except-branch evaluates a warning f-string whose
braces reference the name `celltype` (line 345); that name is neither a local
of the function (the loop variable is `ct`) nor a module-level name, so the
evaluation raises a `NameError` — the branch that would emit the warning and
continue is unreachable.  (The call at line 342 is written
`palantir.utils.early_cell`, another unresolvable prefix since the module
never imports `palantir`; it is modelled here as the call into the
`early_cell` of this very module that it textually denotes.) -/
def find_terminal_states_loop {n m : ℕ} [NeZero n] {α β : Type} [LinearOrder α]
    [LinearOrder β] [Inhabited β] (ad : AnnData n m α) (fallback_seed : Option ℕ)
    (sampleFn : ℕ → List String → String) (run_palantir : String → Fin n → β) :
    List String → List (String × String) → List String →
      Except PyErr (List (String × String) × List String)
  | [], acc, warns => Except.ok (acc, warns)
  | ct :: rest, acc, warns =>
    match early_cell ad ct fallback_seed sampleFn run_palantir with
    | Except.ok r =>
      find_terminal_states_loop ad fallback_seed sampleFn run_palantir rest
        (acc ++ [(ct, ec_result_cell r)]) warns
    | Except.error (PyErr.cellNotFound _) =>
      if find_terminal_states_resolves "celltype" then
        find_terminal_states_loop ad fallback_seed sampleFn run_palantir rest acc
          (warns ++ ["No valid component found: " ++ ct])
      else Except.error (PyErr.nameError "celltype")
    | Except.error e => Except.error e

/-- Model of `find_terminal_states` (lines 308–352): iterate `early_cell` over
the queried cell types. -/
def find_terminal_states {n m : ℕ} [NeZero n] {α β : Type} [LinearOrder α]
    [LinearOrder β] [Inhabited β] (ad : AnnData n m α) (celltypes : List String)
    (fallback_seed : Option ℕ) (sampleFn : ℕ → List String → String)
    (run_palantir : String → Fin n → β) :
    Except PyErr (List (String × String) × List String) :=
  find_terminal_states_loop ad fallback_seed sampleFn run_palantir celltypes [] []

/-- Scanning a list of components on which neither extremum matches leaves the
scan result unchanged. -/
theorem early_cell_scan_append {n m : ℕ} [NeZero n] {α : Type} [LinearOrder α]
    (ad : AnnData n m α) (celltype : String) (L₁ L₂ : List (Fin m))
    (hfail : ∀ d ∈ L₁,
      ad.anno (np_argmax fun i => ad.DM_EigenVectors i d) ≠ celltype ∧
      ad.anno (np_argmin fun i => ad.DM_EigenVectors i d) ≠ celltype) :
    early_cell_scan ad celltype (L₁ ++ L₂) = early_cell_scan ad celltype L₂ := by
  induction L₁ with
  | nil => rfl
  | cons d L₁ ih =>
    have hd := hfail d (List.mem_cons_self _ _)
    rw [List.cons_append, early_cell_scan, if_neg hd.1, if_neg hd.2]
    exact ih fun d' hd' => hfail d' (List.mem_cons_of_mem _ hd')

/-- Every element of the length-`d` prefix of `finRange` is smaller than `d`. -/
theorem finRange_take_lt {m : ℕ} (d : Fin m) (x : Fin m)
    (hx : x ∈ (List.finRange m).take d.1) : x < d := by
  obtain ⟨i, hi, hget⟩ := List.mem_iff_getElem.mp hx
  have hlen : i < d.1 := by
    simp only [List.length_take, List.length_finRange, lt_min_iff] at hi
    exact hi.1
  rw [List.getElem_take] at hget
  subst hget
  simp only [List.getElem_finRange]
  exact Fin.mk_lt_of_lt_val (by simpa using hlen)

/-- Dropping the first `d` elements of `finRange` yields `d` followed by the
rest. -/
theorem finRange_drop_cons {m : ℕ} (d : Fin m) :
    (List.finRange m).drop d.1 = d :: (List.finRange m).drop (d.1 + 1) := by
  have h : d.1 < (List.finRange m).length := by simp [d.isLt]
  rw [List.drop_eq_getElem_cons h]
  simp [List.getElem_finRange]

/-- Claim C8: the extremal-cell search scans eigenvector columns in order
`0 … m-1`, checking for each column first the row holding its maximum and then
the row holding its minimum, and returns the first match; in particular, when
no column before `d` matches and the maximum of column `d` sits at a row
labelled with the target, `early_cell` returns that row tagged as the maximum
of component `d`. -/
theorem claim_C8_scan_order {n m : ℕ} [NeZero n] {α β : Type} [LinearOrder α]
    [LinearOrder β] [Inhabited β] (ad : AnnData n m α) (celltype : String)
    (fallback_seed : Option ℕ) (sampleFn : ℕ → List String → String)
    (run_palantir : String → Fin n → β) (d : Fin m)
    (hbefore : ∀ d' : Fin m, d' < d →
      ad.anno (np_argmax fun i => ad.DM_EigenVectors i d') ≠ celltype ∧
      ad.anno (np_argmin fun i => ad.DM_EigenVectors i d') ≠ celltype)
    (hd : ad.anno (np_argmax fun i => ad.DM_EigenVectors i d) = celltype) :
    early_cell ad celltype fallback_seed sampleFn run_palantir =
      Except.ok (ECOutcome.found
        (ad.obs_names (np_argmax fun i => ad.DM_EigenVectors i d)) "max" d.1) := by
  have hscan : early_cell_scan ad celltype (List.finRange m) =
      early_cell_scan ad celltype ((List.finRange m).drop d.1) := by
    calc early_cell_scan ad celltype (List.finRange m)
        = early_cell_scan ad celltype
            ((List.finRange m).take d.1 ++ (List.finRange m).drop d.1) := by
          rw [List.take_append_drop]
      _ = early_cell_scan ad celltype ((List.finRange m).drop d.1) :=
          early_cell_scan_append ad celltype _ _
            fun d' hd' => hbefore d' (finRange_take_lt d d' hd')
  rw [finRange_drop_cons d] at hscan
  rw [early_cell_scan, if_pos hd] at hscan
  simp only [early_cell, hscan]

/-- Concrete data for the witness of claim C8: two cells, two components; the
column-0 extrema both sit at rows not labelled `T`, while the maximum of
column 1 sits at the `T`-labelled row 1. -/
def adC8 : AnnData 2 2 ℤ where
  DM_EigenVectors := fun i d => if d = 0 then 0 else if i = 1 then 1 else 0
  obs_names := fun i => if i = 0 then "x0" else "x1"
  anno := fun i => if i = 0 then "X" else "T"

/-- Witness for claim C8 at the concrete data `adC8`: column 0 fails both
checks and the maximum of column 1 is the `T`-labelled row `x1`. -/
theorem claim_C8_scan_order_witness :
    (adC8.anno (np_argmax fun i => adC8.DM_EigenVectors i 1) = "T") ∧
      early_cell adC8 "T" none (fun _ _ => "") (fun _ _ => (0 : ℤ)) =
        Except.ok (ECOutcome.found "x1" "max" 1) :=
  ⟨by decide,
    claim_C8_scan_order adC8 "T" none (fun _ _ => "") (fun _ _ => (0 : ℤ)) 1
      (by decide) (by decide)⟩

/-- Concrete data exhibiting the fallback divergence (claim C9): three cells
`c0, c1, c2` labelled `A, A, B`; the single diffusion component has its
maximum at row 1 and minimum at row 0, so no extremum carries label `B`. -/
def adC9 : AnnData 3 1 ℤ where
  DM_EigenVectors := fun i _ => if i = 1 then 2 else if i = 2 then 1 else 0
  obs_names := fun i => if i = 0 then "c0" else if i = 1 then "c1" else "c2"
  anno := fun i => if i = 2 then "B" else "A"

/-- Sampling oracle for the C9 evaluation: the seeded one-element draw picks
the first candidate. -/
def sampleC9 : ℕ → List String → String := fun _ l => l.getD 0 ""

/-- Pseudotime oracle for the C9 evaluation: pseudotime of row `i` is `i`. -/
def ptC9 : String → Fin 3 → ℤ := fun _ i => (i.1 : ℤ)

/-- Claim C9, evaluation at the failing input: with a fallback seed the search
returns `c0` — a cell labelled `A`, obtained by indexing the full name list
with the argmax position local to the `B`-filtered pseudotime series — instead
of the maximal-pseudotime `B` cell `c2`; without a fallback seed it raises
`CellNotFoundException` naming `B` (that half matches the claim). -/
theorem claim_C9_fallback_divergence :
    early_cell adC9 "B" (some 7) sampleC9 ptC9 =
        Except.ok (ECOutcome.fromFallback "c0") ∧
      early_cell adC9 "B" none sampleC9 ptC9 =
        Except.error (PyErr.cellNotFound (cell_not_found_message "B")) ∧
      adC9.anno 0 = "A" ∧ adC9.anno 2 = "B" ∧ adC9.obs_names 2 = "c2" ∧
      ptC9 "c0" 2 = 2 ∧ ptC9 "c0" 0 = 0 :=
  ⟨rfl, rfl, rfl, rfl, rfl, rfl, rfl⟩

/-- Concrete data for the batch evaluation (claim C10): two cells labelled
`X` and `A`; the single component has its maximum at the `A`-labelled row 1,
so the per-category search succeeds for `A` and fails for `B`. -/
def adC10 : AnnData 2 1 ℤ where
  DM_EigenVectors := fun i _ => if i = 1 then 1 else 0
  obs_names := fun i => if i = 0 then "a0" else "a1"
  anno := fun i => if i = 0 then "X" else "A"

/-- Claim C10, evaluation at the failing input: the per-category searches
behave exactly as the claim assumes (`A` is found at an extremum, `B` raises
`CellNotFoundException`), yet the batch call does not return the partial
mapping with a warning — the except-branch evaluates an f-string referencing
the unbound name `celltype` (the loop variable is `ct`), so the batch aborts
with a `NameError`. -/
theorem claim_C10_batch_divergence :
    find_terminal_states adC10 ["A", "B"] none (fun _ _ => "") (fun _ _ => (0 : ℤ)) =
        Except.error (PyErr.nameError "celltype") ∧
      early_cell adC10 "A" none (fun _ _ => "") (fun _ _ => (0 : ℤ)) =
        Except.ok (ECOutcome.found "a1" "max" 0) ∧
      early_cell adC10 "B" none (fun _ _ => "") (fun _ _ => (0 : ℤ)) =
        Except.error (PyErr.cellNotFound (cell_not_found_message "B")) ∧
      find_terminal_states_resolves "celltype" = false ∧
      find_terminal_states_resolves "ct" = true :=
  ⟨rfl, rfl, rfl, rfl, rfl⟩

/-! ### Adaptive anisotropic kernel (`run_diffusion_maps`, lines 60–87)

The kNN distance graph delivered by the external neighbor-search collaborator
(`sc.pp.neighbors`) is a sparse matrix, modelled as `Fin n → Fin n → Option ℚ`
with `some d` for a stored edge of distance `d` (stored distances are finite
floats, hence rational).  The kernel weights use `exp` and live in `ℝ`. -/

/-- Line 69: `adaptive_k = int(np.floor(knn / 3))`. -/
def adaptive_k (knn : ℕ) : ℕ := knn / 3

/-- The stored distances of row `i` of the kNN graph
(`kNN.data[kNN.indptr[i] : kNN.indptr[i + 1]]`, lines 72–75). -/
def row_stored_distances {n : ℕ} (kNN : Fin n → Fin n → Option ℚ) (i : Fin n) : List ℚ :=
  (List.finRange n).filterMap fun j => kNN i j

/-- Lines 72–75: `adaptive_std[i] = np.sort(row i)[adaptive_k - 1]`, the
`adaptive_k`-th smallest stored distance (1-indexed).  When the row stores
fewer than `adaptive_k` distances numpy raises an `IndexError`; that edge is
modelled by the default `0` and is not reached by any claim. -/
def adaptive_std {n : ℕ} (kNN : Fin n → Fin n → Option ℚ) (knn : ℕ) (i : Fin n) : ℚ :=
  (List.insertionSort (fun a b => a ≤ b) (row_stored_distances kNN i)).getD
    (adaptive_k knn - 1) 0

/-- Lines 78–82: `W = csr_matrix((np.exp(-dists / adaptive_std[x]), (x, y)))`,
the asymmetric weight matrix `W i j = exp(-(dist i j / adaptive_std i))` on
stored edges and `0` elsewhere. -/
noncomputable def kernel_W {n : ℕ} (kNN : Fin n → Fin n → Option ℚ) (knn : ℕ) :
    Matrix (Fin n) (Fin n) ℝ :=
  Matrix.of fun i j =>
    match kNN i j with
    | some dist => Real.exp (-((dist / adaptive_std kNN knn i : ℚ) : ℝ))
    | none => 0

/-- Line 85: `kernel = W + W.T`. -/
noncomputable def adaptive_kernel {n : ℕ} (kNN : Fin n → Fin n → Option ℚ) (knn : ℕ) :
    Matrix (Fin n) (Fin n) ℝ :=
  Matrix.of fun i j => kernel_W kNN knn i j + kernel_W kNN knn j i

/-! ### Markov transition operator (`run_diffusion_maps`, lines 89–100) -/

/-- Line 90: `D = np.ravel(kernel.sum(axis=1))`. -/
noncomputable def rowSum {n : ℕ} (K : Matrix (Fin n) (Fin n) ℝ) (i : Fin n) : ℝ :=
  ∑ j, K i j

/-- Lines 92–96: the density correction.  `D[D != 0] = D[D != 0] ** (-alpha)`
leaves zero entries at zero, and `kernel = diag(D) @ kernel @ diag(D)`. -/
noncomputable def alpha_normalized_kernel {n : ℕ} (alpha : ℝ)
    (K : Matrix (Fin n) (Fin n) ℝ) : Matrix (Fin n) (Fin n) ℝ :=
  Matrix.of fun i j =>
    (if rowSum K i = 0 then 0 else rowSum K i ^ (-alpha)) * K i j *
      (if rowSum K j = 0 then 0 else rowSum K j ^ (-alpha))

/-- The kernel after the optional `alpha > 0` correction (lines 92–97). -/
noncomputable def markov_kernel {n : ℕ} (alpha : ℝ) (K : Matrix (Fin n) (Fin n) ℝ) :
    Matrix (Fin n) (Fin n) ℝ :=
  if 0 < alpha then alpha_normalized_kernel alpha K else K

/-- Lines 97–100: recompute the row sums, invert the non-zero ones
(`D[D != 0] = 1 / D[D != 0]`, zero rows stay zero) and multiply on the left:
`T = diag(D) @ kernel`. -/
noncomputable def transition_T {n : ℕ} (alpha : ℝ) (K : Matrix (Fin n) (Fin n) ℝ) :
    Matrix (Fin n) (Fin n) ℝ :=
  Matrix.of fun i j =>
    (if rowSum (markov_kernel alpha K) i = 0 then 0
      else 1 / rowSum (markov_kernel alpha K) i) *
      markov_kernel alpha K i j

/-! ### Eigen decomposition post-processing (`run_diffusion_maps`, lines 101–123)

The iterative sparse eigensolver `scipy.sparse.linalg.eigs` is an external
collaborator; it enters the embedding as the parameter `eigs_solver`, whose
output stands for the real parts `np.real(D), np.real(V)` of the computed
eigenpairs (line 105–106).  The post-processing — descending sort by
eigenvalue and L2 normalization of each eigenvector column — is modelled
exactly. -/

/-- Line 107: `inds = np.argsort(D)[::-1]` as a list of column indices. -/
noncomputable def eig_sort_indices {mm : ℕ} (D : Fin mm → ℝ) : List (Fin mm) :=
  (List.insertionSort (fun a b => D a ≤ D b) (List.finRange mm)).reverse

/-- The permutation sending output position `j` to the input column at
position `j` of `inds` (lines 108–109). -/
noncomputable def eig_perm {mm : ℕ} [NeZero mm] (D : Fin mm → ℝ) (j : Fin mm) : Fin mm :=
  (eig_sort_indices D).getD j.1 ⟨0, Nat.pos_of_ne_zero (NeZero.ne mm)⟩

/-- Lines 112–113: `V[:, i] = V[:, i] / np.linalg.norm(V[:, i])`. -/
noncomputable def l2_normalize_col {n : ℕ} (v : Fin n → ℝ) : Fin n → ℝ :=
  fun i => v i / Real.sqrt (∑ k, v k ^ 2)

/-- The result dictionary of `run_diffusion_maps` (lines 115–123): the
operator `T`, the post-processed eigenpairs, the kernel, and the row index of
the `EigenVectors` frame. -/
structure DiffusionMapResult (n mm : ℕ) : Type where
  T : Matrix (Fin n) (Fin n) ℝ
  EigenVectors : Fin n → Fin mm → ℝ
  EigenValues : Fin mm → ℝ
  kernel : Matrix (Fin n) (Fin n) ℝ
  index : Fin n → String

/-- Model of `run_diffusion_maps` on an already-sparse input (line 87:
`kernel = data_df`): the input matrix is used directly as the kernel, then
normalized into `T`, and the eigenpairs delivered by the solver are sorted
descending and column-normalized.  On this path the `EigenVectors` frame
keeps the default positional index. -/
noncomputable def run_diffusion_maps_sparse {n mm : ℕ} [NeZero mm]
    (data_df : Matrix (Fin n) (Fin n) ℝ) (alpha : ℝ)
    (eigs_solver : Matrix (Fin n) (Fin n) ℝ → (Fin mm → ℝ) × (Fin n → Fin mm → ℝ)) :
    DiffusionMapResult n mm where
  T := transition_T alpha data_df
  EigenVectors := fun i j =>
    l2_normalize_col
      (fun k => (eigs_solver (transition_T alpha data_df)).2 k
        (eig_perm (eigs_solver (transition_T alpha data_df)).1 j)) i
  EigenValues := fun j =>
    (eigs_solver (transition_T alpha data_df)).1
      (eig_perm (eigs_solver (transition_T alpha data_df)).1 j)
  kernel := markov_kernel alpha data_df
  index := fun i => toString i.1

/-- Model of `run_diffusion_maps` on a dense input (lines 62–85): the kernel
is the adaptive kernel of the kNN graph of the data, and the `EigenVectors`
frame carries the row index of the input frame (line 119). -/
noncomputable def run_diffusion_maps_dense {n mm : ℕ} [NeZero mm]
    (kNN : Fin n → Fin n → Option ℚ) (knn : ℕ) (data_index : Fin n → String) (alpha : ℝ)
    (eigs_solver : Matrix (Fin n) (Fin n) ℝ → (Fin mm → ℝ) × (Fin n → Fin mm → ℝ)) :
    DiffusionMapResult n mm :=
  { run_diffusion_maps_sparse (adaptive_kernel kNN knn) alpha eigs_solver with
    index := data_index }

/-! ### Multiscale space (`determine_multiscale_space`, lines 146–166) -/

/-- The output frame of `determine_multiscale_space`: an `n × ncols` matrix
with the row index of the input `EigenVectors` frame. -/
structure MultiscaleFrame (n : ℕ) : Type where
  ncols : ℕ
  entries : Fin n → Fin ncols → ℝ
  index : Fin n → String

/-- Model of `determine_multiscale_space` (lines 146–166): choose `n_eigs`
(the given value, or the eigen-gap selection when `None`), keep eigenvector
columns `use_eigs = range(1, n_eigs)`, and scale column `j` by
`eig_vals[j] / (1 - eig_vals[j])`.  A chosen `n_eigs` above `mm` would raise
an `IndexError` in the source; those entries are modelled as `0` and are not
reached by any claim (which assume `n_eigs ≤ mm`). -/
noncomputable def determine_multiscale_space {n mm : ℕ} (dm : DiffusionMapResult n mm)
    (n_eigs : Option ℕ) : MultiscaleFrame n :=
  let ne :=
    match n_eigs with
    | some k => k
    | none => eigengap_n_eigs ((List.finRange mm).map dm.EigenValues)
  { ncols := ne - 1
    entries := fun i j =>
      if h : j.1 + 1 < mm then
        dm.EigenVectors i ⟨j.1 + 1, h⟩ *
          (dm.EigenValues ⟨j.1 + 1, h⟩ / (1 - dm.EigenValues ⟨j.1 + 1, h⟩))
      else 0
    index := dm.index }

/-! ### MAGIC imputation (`run_magic_imputation`, lines 126–143) -/

/-- A data frame aligned to the `n` rows of the operator: entries plus row and
column labels. -/
structure LabeledMatrix (n p : ℕ) : Type where
  entries : Fin n → Fin p → ℝ
  index : Fin n → String
  columns : Fin p → String

/-- Model of `run_magic_imputation` (lines 126–143; `n_steps` defaults to `3`
in the source): `T_steps = dm_res["T"] ** n_steps` is the `n_steps`-th MATRIX
power of the sparse operator, and the result is
`np.dot(T_steps.todense(), data)` wrapped with the row and column labels of
the input frame. -/
noncomputable def run_magic_imputation {n mm p : ℕ} (data : LabeledMatrix n p)
    (dm : DiffusionMapResult n mm) (n_steps : ℕ) : LabeledMatrix n p where
  entries := fun i j => ∑ k, (dm.T ^ n_steps) i k * data.entries k j
  index := data.index
  columns := data.columns

/-- Claim C1: for every kernel matrix `K` and every `alpha ≥ 0`, the operator
`T` built by `run_diffusion_maps` has rows summing to `1` wherever the
(possibly alpha-normalized) kernel row sum is non-zero, and all-zero rows
wherever that row sum is zero (isolated rows are not renormalized).  In this
exact-arithmetic model the floating tolerance of the claim becomes equality. -/
theorem claim_C1_row_stochastic {n mm : ℕ} [NeZero mm] (K : Matrix (Fin n) (Fin n) ℝ)
    (alpha : ℝ)
    (eigs_solver : Matrix (Fin n) (Fin n) ℝ → (Fin mm → ℝ) × (Fin n → Fin mm → ℝ))
    (halpha : 0 ≤ alpha) (i : Fin n) :
    (rowSum (markov_kernel alpha K) i ≠ 0 →
      ∑ j, (run_diffusion_maps_sparse K alpha eigs_solver).T i j = 1) ∧
    (rowSum (markov_kernel alpha K) i = 0 →
      ∀ j, (run_diffusion_maps_sparse K alpha eigs_solver).T i j = 0) := by
  constructor
  · intro hne
    have hTij : ∀ j, (run_diffusion_maps_sparse K alpha eigs_solver).T i j =
        (1 / rowSum (markov_kernel alpha K) i) * markov_kernel alpha K i j := by
      intro j
      simp only [run_diffusion_maps_sparse, transition_T, Matrix.of_apply, if_neg hne]
    rw [Finset.sum_congr rfl fun j _ => hTij j, ← Finset.mul_sum]
    have hsum : ∑ j, markov_kernel alpha K i j = rowSum (markov_kernel alpha K) i := rfl
    rw [hsum, one_div, inv_mul_cancel₀ hne]
  · intro h0 j
    simp only [run_diffusion_maps_sparse, transition_T, Matrix.of_apply, if_pos h0, zero_mul]

/-- Kernel matrix for the witness of claim C1: row 0 is `[1, 1]` (row sum 2),
row 1 is `[0, 0]` (an isolated row). -/
noncomputable def KC1 : Matrix (Fin 2) (Fin 2) ℝ :=
  Matrix.of fun i _ => if i = 0 then 1 else 0

/-- A constant stand-in for the external eigensolver, used by witnesses. -/
noncomputable def solverC1 : Matrix (Fin 2) (Fin 2) ℝ → (Fin 1 → ℝ) × (Fin 2 → Fin 1 → ℝ) :=
  fun _ => (fun _ => 0, fun _ _ => 0)

/-- Witness for claim C1 at `alpha = 0` and the kernel `KC1`: the non-isolated
row 0 of `T` sums to `1` and the isolated row 1 stays all-zero. -/
theorem claim_C1_row_stochastic_witness :
    ((0 : ℝ) ≤ 0) ∧ rowSum (markov_kernel 0 KC1) 0 ≠ 0 ∧
      rowSum (markov_kernel 0 KC1) 1 = 0 ∧
      (∑ j, (run_diffusion_maps_sparse KC1 0 solverC1).T 0 j = 1) ∧
      (run_diffusion_maps_sparse KC1 0 solverC1).T 1 0 = 0 := by
  have hK : markov_kernel (0 : ℝ) KC1 = KC1 := by
    rw [markov_kernel, if_neg (lt_irrefl (0 : ℝ))]
  have h0 : rowSum (markov_kernel 0 KC1) 0 ≠ 0 := by
    rw [hK]
    show (∑ j, KC1 0 j) ≠ 0
    rw [Fin.sum_univ_two]
    norm_num [KC1]
  have h1 : rowSum (markov_kernel 0 KC1) 1 = 0 := by
    rw [hK]
    show (∑ j, KC1 1 j) = 0
    rw [Fin.sum_univ_two]
    norm_num [KC1]
  exact ⟨le_refl 0, h0, h1,
    (claim_C1_row_stochastic KC1 0 solverC1 (le_refl 0) 0).1 h0,
    (claim_C1_row_stochastic KC1 0 solverC1 (le_refl 0) 1).2 h1 0⟩

/-- Claim C2: on the dense path, the kernel is `W + Wᵗ` with
`W i j = exp(-(dist i j / adaptive_std i))` on stored edges and the adaptive
bandwidth `adaptive_std i` the `⌊knn/3⌋`-th smallest stored distance of
row `i` (1-indexed); consequently the kernel is exactly symmetric, and a
mutual-neighbor pair receives the sum of the two directed exponential
weights. -/
theorem claim_C2_kernel_symmetric {n : ℕ} (kNN : Fin n → Fin n → Option ℚ) (knn : ℕ)
    (i j : Fin n) (d₁ d₂ : ℚ) (h1 : kNN i j = some d₁) (h2 : kNN j i = some d₂) :
    adaptive_kernel kNN knn i j =
        Real.exp (-((d₁ / adaptive_std kNN knn i : ℚ) : ℝ)) +
          Real.exp (-((d₂ / adaptive_std kNN knn j : ℚ) : ℝ)) ∧
      (∀ a b, adaptive_kernel kNN knn a b = adaptive_kernel kNN knn b a) ∧
      adaptive_kernel kNN knn i j = kernel_W kNN knn i j + kernel_W kNN knn j i := by
  refine ⟨?_, ?_, rfl⟩
  · simp only [adaptive_kernel, kernel_W, Matrix.of_apply, h1, h2]
  · intro a b
    simp only [adaptive_kernel, Matrix.of_apply]
    exact add_comm _ _

/-- Distance graph for the witness of claim C2: the mutual pair `(0, 1)` with
stored distances `1` and `2`. -/
def kNNC2 : Fin 2 → Fin 2 → Option ℚ :=
  fun i j => if i = j then none else if i = 0 then some 1 else some 2

/-- Witness for claim C2 at `knn = 3` (so `adaptive_k = 1`): the kernel entry
of the mutual pair is the sum of the two directed exponentials and the kernel
is symmetric there. -/
theorem claim_C2_kernel_symmetric_witness :
    kNNC2 0 1 = some 1 ∧ kNNC2 1 0 = some 2 ∧
      adaptive_kernel kNNC2 3 0 1 = adaptive_kernel kNNC2 3 1 0 ∧
      adaptive_kernel kNNC2 3 0 1 =
        Real.exp (-((1 / adaptive_std kNNC2 3 0 : ℚ) : ℝ)) +
          Real.exp (-((2 / adaptive_std kNNC2 3 1 : ℚ) : ℝ)) :=
  ⟨rfl, rfl, (claim_C2_kernel_symmetric kNNC2 3 0 1 1 2 rfl rfl).2.1 0 1,
    (claim_C2_kernel_symmetric kNNC2 3 0 1 1 2 rfl rfl).1⟩

theorem eig_sort_indices_length {mm : ℕ} (D : Fin mm → ℝ) :
    (eig_sort_indices D).length = mm := by
  rw [eig_sort_indices, List.length_reverse, (List.perm_insertionSort _ _).length_eq,
    List.length_finRange]

theorem eig_sort_indices_pairwise {mm : ℕ} (D : Fin mm → ℝ) :
    List.Pairwise (fun a b => D b ≤ D a) (eig_sort_indices D) := by
  rw [eig_sort_indices]
  refine List.pairwise_reverse.mpr ?_
  haveI : IsTotal (Fin mm) (fun a b => D a ≤ D b) := ⟨fun a b => le_total _ _⟩
  haveI : IsTrans (Fin mm) (fun a b => D a ≤ D b) := ⟨fun a b c hab hbc => le_trans hab hbc⟩
  exact List.sorted_insertionSort _ _

/-- The sorted eigenvalue sequence is weakly descending along output
positions. -/
theorem eig_perm_antitone {mm : ℕ} [NeZero mm] (D : Fin mm → ℝ) (j k : Fin mm)
    (hjk : j ≤ k) : D (eig_perm D k) ≤ D (eig_perm D j) := by
  rcases eq_or_lt_of_le hjk with heq | hlt
  · rw [heq]
  · have hlen := eig_sort_indices_length D
    have hj : j.1 < (eig_sort_indices D).length := by rw [hlen]; exact j.isLt
    have hk : k.1 < (eig_sort_indices D).length := by rw [hlen]; exact k.isLt
    have hrel := List.pairwise_iff_get.mp (eig_sort_indices_pairwise D)
      ⟨j.1, hj⟩ ⟨k.1, hk⟩ hlt
    rw [eig_perm, eig_perm, List.getD_eq_get _ _ hj, List.getD_eq_get _ _ hk]
    exact hrel

/-- A normalized non-zero column has unit L2 norm. -/
theorem l2_normalize_col_norm {n : ℕ} (v : Fin n → ℝ) (hv : ∃ i, v i ≠ 0) :
    Real.sqrt (∑ i, l2_normalize_col v i ^ 2) = 1 := by
  obtain ⟨i0, hi0⟩ := hv
  have hS : 0 < ∑ k, v k ^ 2 :=
    Finset.sum_pos' (fun k _ => sq_nonneg _) ⟨i0, Finset.mem_univ i0, by positivity⟩
  have hsum : ∑ i, l2_normalize_col v i ^ 2 = 1 := by
    simp only [l2_normalize_col, div_pow]
    rw [← Finset.sum_div, Real.sq_sqrt hS.le, div_self hS.ne.symm]
  rw [hsum, Real.sqrt_one]

/-- Claim C3: in every result of `run_diffusion_maps`, the `EigenValues`
sequence (real parts, as delivered by the solver) is sorted descending, and —
provided the solver delivers non-zero eigenvector columns, as an eigensolver
does — every column of `EigenVectors` has L2 norm exactly 1 (the floating
tolerance of the claim becomes equality in this exact model). -/
theorem claim_C3_eig_postprocessing {n mm : ℕ} [NeZero mm] (K : Matrix (Fin n) (Fin n) ℝ)
    (alpha : ℝ)
    (eigs_solver : Matrix (Fin n) (Fin n) ℝ → (Fin mm → ℝ) × (Fin n → Fin mm → ℝ))
    (hV : ∀ j : Fin mm, ∃ i : Fin n, (eigs_solver (transition_T alpha K)).2 i j ≠ 0) :
    (∀ j k : Fin mm, j ≤ k →
      (run_diffusion_maps_sparse K alpha eigs_solver).EigenValues k ≤
        (run_diffusion_maps_sparse K alpha eigs_solver).EigenValues j) ∧
    (∀ j : Fin mm,
      Real.sqrt (∑ i,
        (run_diffusion_maps_sparse K alpha eigs_solver).EigenVectors i j ^ 2) = 1) := by
  constructor
  · intro j k hjk
    exact eig_perm_antitone _ j k hjk
  · intro j
    exact l2_normalize_col_norm _ (hV _)

/-- One-point kernel for the witness of claim C3. -/
noncomputable def KC3 : Matrix (Fin 1) (Fin 1) ℝ := Matrix.of fun _ _ => 0

/-- Constant solver output for the witness of claim C3: eigenvalue `0` with
the non-zero eigenvector column `[1]`. -/
noncomputable def solverC3 : Matrix (Fin 1) (Fin 1) ℝ → (Fin 1 → ℝ) × (Fin 1 → Fin 1 → ℝ) :=
  fun _ => (fun _ => 0, fun _ _ => 1)

/-- Witness for claim C3 at the one-point data: the single eigenvector column
is normalized to unit norm and the one-element eigenvalue sequence is
trivially sorted. -/
theorem claim_C3_eig_postprocessing_witness :
    (∃ i : Fin 1, (solverC3 (transition_T 0 KC3)).2 i 0 ≠ 0) ∧
      (run_diffusion_maps_sparse KC3 0 solverC3).EigenValues 0 ≤
        (run_diffusion_maps_sparse KC3 0 solverC3).EigenValues 0 ∧
      Real.sqrt (∑ i,
        (run_diffusion_maps_sparse KC3 0 solverC3).EigenVectors i 0 ^ 2) = 1 := by
  have hV : ∀ j : Fin 1, ∃ i : Fin 1, (solverC3 (transition_T 0 KC3)).2 i j ≠ 0 :=
    fun j => ⟨0, by norm_num [solverC3]⟩
  exact ⟨hV 0,
    (claim_C3_eig_postprocessing KC3 0 solverC3 hV).1 0 0 (le_refl 0),
    (claim_C3_eig_postprocessing KC3 0 solverC3 hV).2 0⟩

/-- Claim C6: for every diffusion map result and every `n_eigs ≥ 2` with
`n_eigs ≤ mm`, `determine_multiscale_space` returns a frame with exactly
`n_eigs - 1` columns, row-indexed identically to the `EigenVectors` input;
column `j` of the output is eigenvector column `j + 1` (column 0 is always
dropped) scaled by `λ / (1 - λ)` of eigenvalue `j + 1`; and the unspecified
`n_eigs` case runs with the eigen-gap selection. -/
theorem claim_C6_multiscale_frame {n mm : ℕ} (dm : DiffusionMapResult n mm) (ne : ℕ)
    (h2 : 2 ≤ ne) (hm : ne ≤ mm) :
    (determine_multiscale_space dm (some ne)).ncols = ne - 1 ∧
      (determine_multiscale_space dm (some ne)).index = dm.index ∧
      determine_multiscale_space dm none =
        determine_multiscale_space dm
          (some (eigengap_n_eigs ((List.finRange mm).map dm.EigenValues))) ∧
      ∀ (i : Fin n) (j : ℕ) (hj : j < (determine_multiscale_space dm (some ne)).ncols)
        (hjm : j + 1 < mm),
        (determine_multiscale_space dm (some ne)).entries i ⟨j, hj⟩ =
          dm.EigenVectors i ⟨j + 1, hjm⟩ *
            (dm.EigenValues ⟨j + 1, hjm⟩ / (1 - dm.EigenValues ⟨j + 1, hjm⟩)) := by
  refine ⟨rfl, rfl, rfl, ?_⟩
  intro i j hj hjm
  simp only [determine_multiscale_space]
  rw [dif_pos hjm]

/-- Diffusion map result for the witness of claim C6: three eigenpairs on a
single point. -/
noncomputable def dmC6 : DiffusionMapResult 1 3 where
  T := 0
  EigenVectors := fun _ j => (j.1 : ℝ)
  EigenValues := fun j => if j = 0 then 1 else (1 / 2 : ℝ)
  kernel := 0
  index := fun _ => "row0"

/-- Witness for claim C6 at `n_eigs = 2`: one output column, the input row
index, and entry `(0, 0)` equal to eigenvector column 1 scaled by
`λ₁ / (1 - λ₁)`. -/
theorem claim_C6_multiscale_frame_witness :
    (2 ≤ 2 ∧ (2 : ℕ) ≤ 3) ∧
      (determine_multiscale_space dmC6 (some 2)).ncols = 2 - 1 ∧
      (determine_multiscale_space dmC6 (some 2)).index = dmC6.index ∧
      (determine_multiscale_space dmC6 (some 2)).entries 0 ⟨0, Nat.zero_lt_one⟩ =
        dmC6.EigenVectors 0 ⟨1, by norm_num⟩ *
          (dmC6.EigenValues ⟨1, by norm_num⟩ / (1 - dmC6.EigenValues ⟨1, by norm_num⟩)) := by
  have h := claim_C6_multiscale_frame dmC6 2 (by norm_num) (by norm_num)
  exact ⟨⟨by norm_num, by norm_num⟩, h.1, h.2.1,
    h.2.2.2 0 0 Nat.zero_lt_one (by norm_num)⟩

/-- Claim C7: for every data matrix aligned to the `n` rows of the operator
and every `n_steps ≥ 1` (the source default is 3), `run_magic_imputation`
returns exactly the `n_steps`-th matrix power of `T` multiplied by the data
matrix, carrying the row and column labels of the input data matrix. -/
theorem claim_C7_magic_imputation {n mm p : ℕ} (data : LabeledMatrix n p)
    (dm : DiffusionMapResult n mm) (n_steps : ℕ) (hst : 1 ≤ n_steps) :
    (∀ i j, (run_magic_imputation data dm n_steps).entries i j =
      ((dm.T ^ n_steps) * Matrix.of data.entries) i j) ∧
      (run_magic_imputation data dm n_steps).index = data.index ∧
      (run_magic_imputation data dm n_steps).columns = data.columns := by
  refine ⟨?_, rfl, rfl⟩
  intro i j
  rw [Matrix.mul_apply]
  rfl

/-- Diffusion map result for the witness of claim C7: the identity operator on
one point. -/
noncomputable def dmC7 : DiffusionMapResult 1 1 where
  T := 1
  EigenVectors := fun _ _ => 0
  EigenValues := fun _ => 0
  kernel := 0
  index := fun _ => "r0"

/-- Data frame for the witness of claim C7. -/
noncomputable def dataC7 : LabeledMatrix 1 1 where
  entries := fun _ _ => 5
  index := fun _ => "r0"
  columns := fun _ => "g0"

/-- Witness for claim C7 at the default `n_steps = 3`. -/
theorem claim_C7_magic_imputation_witness :
    (1 ≤ 3) ∧
      (run_magic_imputation dataC7 dmC7 3).entries 0 0 =
        ((dmC7.T ^ 3) * Matrix.of dataC7.entries) 0 0 ∧
      (run_magic_imputation dataC7 dmC7 3).index = dataC7.index ∧
      (run_magic_imputation dataC7 dmC7 3).columns = dataC7.columns := by
  have h := claim_C7_magic_imputation dataC7 dmC7 3 (by norm_num)
  exact ⟨by norm_num, h.1 0 0, h.2.1, h.2.2⟩
